import Mathlib

/-!
Verification of fastforms (`fastforms/fields/core.py`): a shallow embedding of
the field binding/validation pipeline — `Field.process`, `Field.validate`,
the concrete field types (`StringField`, `IntegerField`, `BooleanField`,
`SelectField`) and the repeating-list component `FieldList`.

Python values relevant to the claims are modelled by the inductive `PyVal`;
multi-valued formdata by an ordered association list; exceptions (`ValueError`,
`StopValidation`) by explicit outcome values, mirroring the `try/except`
structure of the source.
-/

namespace FastForms

/-- The Python values the fields under verification traffic in:
`None`, strings, ints and booleans.  Equality is Python `==` restricted to
these types (values of different constructors are never equal, as in Python
for these particular types). -/
inductive PyVal where
  | none : PyVal
  | str : String → PyVal
  | int : Int → PyVal
  | bool : Bool → PyVal
deriving DecidableEq

/-- Python truthiness (`bool(v)`) for the modelled values. -/
def pyTruthy : PyVal → Bool
  | .none => false
  | .str s => s ≠ ""
  | .int n => n ≠ 0
  | .bool b => b

/-- Python `str(v)` (`text_type`) for the modelled values. -/
def pyStr : PyVal → String
  | .none => "None"
  | .str s => s
  | .int n => toString n
  | .bool b => if b then "True" else "False"

/-- Formdata: the multi-valued wire mapping, modelled as an ordered list of
(key, value) pairs.  Iteration yields the keys in order; `getlist` collects
every value stored under a key, in order. -/
abbrev Formdata := List (String × String)

/-- Python `key in formdata` (multidict containment). -/
def containsKey (f : Formdata) (k : String) : Bool :=
  f.any (fun kv => kv.1 = k)

/-- Python `formdata.getlist(key)`: every value stored under `key`, in order. -/
def getAll (f : Formdata) (k : String) : List String :=
  f.filterMap (fun kv => if kv.1 = k then some kv.2 else none)

/-- The mutable state of a bound field (`BaseField` attributes `data`,
`raw_data`, `object_data`, `process_errors`, `errors`).  `raw_data` is
`none` for Python `None` (never processed with formdata) and `some l`
for a list. -/
structure FieldState where
  data : PyVal
  rawData : Option (List String)
  objectData : PyVal
  processErrors : List String
  errors : List String
deriving DecidableEq

/-- A freshly constructed bound field: `data = raw_data = None`,
no errors (`BaseField` attribute defaults). -/
def initFieldState : FieldState :=
  { data := .none, rawData := none, objectData := .none,
    processErrors := [], errors := [] }

/-- The per-type hooks `Field.process` dispatches to.  A hook returns the
`data` it leaves on the field together with `some msg` when it raises
`ValueError(msg)` (Python hooks may assign `self.data` before raising, e.g.
`IntegerField.process_formdata` sets `data = None` then raises). -/
structure ProcHooks where
  processData : PyVal → PyVal × Option String
  processFormdata : List String → PyVal → PyVal × Option String
  filters : List (PyVal → Except String PyVal)

/-- The filter loop of `Field.process`: filters are applied in order; the
first filter raising `ValueError` stops further filtering, `data` keeps the
value it had before that filter, and the message is reported. -/
def applyFilters : List (PyVal → Except String PyVal) → PyVal → PyVal × Option String
  | [], d => (d, none)
  | f :: fs, d =>
    match f d with
    | .ok d' => applyFilters fs d'
    | .error m => (d, some m)

/-- Models `Field.process(formdata, data)`: resets `process_errors`, resolves the
default when `data` is `unset_value` (modelled by `dataArg = none`; the
source's `default()`-call falls through to the plain value for non-callable
defaults), sets `object_data`, runs `process_data` catching `ValueError`,
then — when `formdata is not None` — looks up `raw_data` by the field's wire
`name` (empty list when the key is absent) and runs `process_formdata`
catching `ValueError`, and finally applies the filters, catching the first
`ValueError`.  Every caught message is appended to `process_errors` in
order. -/
def fieldProcess (h : ProcHooks) (name : String) (default : PyVal)
    (fd : Option Formdata) (dataArg : Option PyVal) (st : FieldState) :
    FieldState :=
  let data := dataArg.getD default
  let pd := h.processData data
  let st1 : FieldState :=
    { st with objectData := data, data := pd.1, processErrors := pd.2.toList }
  let st2 : FieldState :=
    match fd with
    | Option.none => st1
    | some f =>
      let raw := if containsKey f name then getAll f name else []
      let pf := h.processFormdata raw st1.data
      { st1 with
        rawData := some raw
        data := pf.1
        processErrors := st1.processErrors ++ pf.2.toList }
  let fl := applyFilters h.filters st2.data
  { st2 with data := fl.1, processErrors := st2.processErrors ++ fl.2.toList }

/-- Base `Field.process_data`: `self.data = value`. -/
def baseProcessData (v : PyVal) : PyVal × Option String := (v, none)

/-- Base `Field.process_formdata`: `if valuelist: self.data = valuelist[0]`
(an empty value list leaves `data` untouched). -/
def baseProcessFormdata (vl : List String) (d : PyVal) : PyVal × Option String :=
  match vl with
  | [] => (d, none)
  | x :: _ => (.str x, none)

/-- Hooks of the base `Field` class. -/
def baseHooks : ProcHooks :=
  { processData := baseProcessData
    processFormdata := baseProcessFormdata
    filters := [] }

/-- Models `StringField.process_formdata`: first raw value when present, else the
empty string. -/
def stringProcessFormdata (vl : List String) (_d : PyVal) : PyVal × Option String :=
  match vl with
  | [] => (.str "", none)
  | x :: _ => (.str x, none)

/-- Hooks of `StringField`. -/
def stringHooks : ProcHooks :=
  { processData := baseProcessData
    processFormdata := stringProcessFormdata
    filters := [] }

/-- Python whitespace (`str.strip` / `int` parsing). -/
def isPySpace (c : Char) : Bool :=
  c = ' ' ∨ c = '\t' ∨ c = '\n' ∨ c = '\r' ∨ c = '\x0b' ∨ c = '\x0c'

/-- Python `int(s)` on a string: optional surrounding whitespace, optional
sign, then a nonempty run of digits; anything else raises `ValueError`
(modelled as `none`). -/
def parsePyInt (s : String) : Option Int :=
  let t := ((s.data.dropWhile isPySpace).reverse.dropWhile isPySpace).reverse
  let core : Int × List Char :=
    match t with
    | '+' :: rest => (1, rest)
    | '-' :: rest => (-1, rest)
    | l => (1, l)
  if core.2 ≠ [] ∧ core.2.all Char.isDigit then
    some (core.1 * (core.2.foldl (fun a c => a * 10 + (c.toNat - 48)) 0 : Nat))
  else
    Option.none

/-- Models `IntegerField.process_formdata`: parses the first raw value with `int`;
on failure sets `data = None` and raises "Not a valid integer value"
(`gettext` is the identity under the default `DummyTranslations`). -/
def integerProcessFormdata (vl : List String) (d : PyVal) : PyVal × Option String :=
  match vl with
  | [] => (d, none)
  | x :: _ =>
    match parsePyInt x with
    | some n => (.int n, none)
    | Option.none => (.none, some "Not a valid integer value")

/-- Hooks of `IntegerField`. -/
def integerHooks : ProcHooks :=
  { processData := baseProcessData
    processFormdata := integerProcessFormdata
    filters := [] }

/-- Models `IntegerField.value()`: the first raw value when `raw_data` is truthy
(neither `None` nor empty), else `str(data)` when `data is not None`, else
the empty string. -/
def integerValue (st : FieldState) : String :=
  match st.rawData with
  | some (x :: _) => x
  | _ =>
    match st.data with
    | .none => ""
    | d => pyStr d

/-- Base `Field.value()`: `str(data)` when `data is not None`, else `''`. -/
def baseValue (st : FieldState) : String :=
  match st.data with
  | .none => ""
  | d => pyStr d

/-- The `BooleanField.false_values` default: `(False, 'false', '')`. -/
def defaultFalseValues : List PyVal := [.bool false, .str "false", .str ""]

/-- Models `BooleanField.process_formdata`: `data = False` when the value list is
empty or its first element is among `false_values`, else `True`. -/
def booleanProcessFormdata (falseValues : List PyVal) (vl : List String)
    (_d : PyVal) : PyVal × Option String :=
  match vl with
  | [] => (.bool false, none)
  | x :: _ =>
    if PyVal.str x ∈ falseValues then (.bool false, none) else (.bool true, none)

/-- Hooks of `BooleanField` with the given `false_values`
(`process_data` coerces through generic truthiness). -/
def booleanHooksWith (falseValues : List PyVal) : ProcHooks :=
  { processData := fun v => (.bool (pyTruthy v), none)
    processFormdata := booleanProcessFormdata falseValues
    filters := [] }

/-- Hooks of `BooleanField` with the default `false_values`. -/
def booleanHooks : ProcHooks := booleanHooksWith defaultFalseValues

/-- The `coerce=int` callable applied to a `PyVal`: Python `int(v)`;
`int(None)` raises `TypeError`, a malformed string raises `ValueError`
(both modelled as `none`, matching the `except` clauses at the call
sites). -/
def coerceInt : PyVal → Option PyVal
  | .str s => (parsePyInt s).map PyVal.int
  | .int n => some (.int n)
  | .bool b => some (.int (if b then 1 else 0))
  | .none => Option.none

/-- The default `coerce=text_type` callable: Python `str`, never failing. -/
def coerceStr (v : PyVal) : Option PyVal := some (.str (pyStr v))

/-- Models `SelectField.process_data`: coerces, and on `ValueError`/`TypeError`
silently sets `data = None` (no error queued). -/
def selectProcessData (coerce : PyVal → Option PyVal) (v : PyVal) :
    PyVal × Option String :=
  ((coerce v).getD .none, none)

/-- Models `SelectField.process_formdata`: coerces the first raw value; a coercion
`ValueError` leaves `data` untouched and raises
"Invalid Choice: could not coerce". -/
def selectProcessFormdata (coerce : PyVal → Option PyVal) (vl : List String)
    (d : PyVal) : PyVal × Option String :=
  match vl with
  | [] => (d, none)
  | x :: _ =>
    match coerce (.str x) with
    | some c => (c, none)
    | Option.none => (d, some "Invalid Choice: could not coerce")

/-- Hooks of `SelectField` for a given `coerce` callable. -/
def selectHooks (coerce : PyVal → Option PyVal) : ProcHooks :=
  { processData := selectProcessData coerce
    processFormdata := selectProcessFormdata coerce
    filters := [] }

/-- Models `SelectField.pre_validate`: scans `choices` for an entry whose *first
component* (the raw, uncoerced choice value) equals `data`; when none
matches, raises `ValueError("Not a valid choice")` (returned as
`some msg`). -/
def selectPreValidate (choices : List (PyVal × String)) (d : PyVal) :
    Option String :=
  if choices.any (fun c => c.1 = d) then none else some "Not a valid choice"

/-- The outcome of calling one validator (or `pre_validate`):
normal return, `ValueError(msg)` (non-halting), or `StopValidation`
carrying an optional message (halting).  This is the explicit tagged
outcome corresponding to the source's exception-as-control-flow. -/
inductive VOutcome where
  | ok : VOutcome
  | fail : String → VOutcome
  | stop : Option String → VOutcome

/-- The `if e.args and e.args[0]` test on a caught `StopValidation`:
its message is appended only when present and truthy (nonempty). -/
def pushMsg {ε : Type} (inj : String → ε) (om : Option String)
    (errs : List ε) : List ε :=
  match om with
  | some s => if s = "" then errs else errs ++ [inj s]
  | Option.none => errs

/-- Models `Field._run_validation_chain`: runs the validators in order.  A
`ValueError` appends its message and continues; a `StopValidation` appends
its truthy message (if any) and returns immediately with `True` (stopped);
the remaining validators never run.  Generic in the error-element type so
that `FieldList.validate` (whose `errors` list mixes strings and
per-entry lists) can reuse it. -/
def runChain {ε : Type} (inj : String → ε) :
    List VOutcome → List ε → List ε × Bool
  | [], errs => (errs, false)
  | .ok :: rest, errs => runChain inj rest errs
  | .fail m :: rest, errs => runChain inj rest (errs ++ [inj m])
  | .stop om :: _, errs => (pushMsg inj om errs, true)

/-- The `pre_validate` step of `Field.validate`: `StopValidation` appends
its truthy message and sets the stop flag; `ValueError` appends its message
without stopping. -/
def preApply (pre : VOutcome) (errs : List String) : List String × Bool :=
  match pre with
  | .ok => (errs, false)
  | .fail m => (errs ++ [m], false)
  | .stop om => (pushMsg id om errs, true)

/-- Models `Field.validate(form, extra_validators)`: `errors` is rebuilt from
scratch, seeded with `process_errors`; then `pre_validate` (caught as in
`preApply`); unless stopped, the validator chain (`validators` followed by
`extra_validators`, already concatenated into `chain` here); then
`post_validate`, whose `ValueError` (if any) is appended (`post`).
Returns the updated field and `len(errors) == 0`. -/
def fieldValidate (pre : VOutcome) (chain : List VOutcome)
    (post : Option String) (st : FieldState) : FieldState × Bool :=
  let p1 := preApply pre st.processErrors
  let p2 := if p1.2 then p1 else runChain id chain p1.1
  let e3 := match post with
    | some m => p2.1 ++ [m]
    | Option.none => p2.1
  ({ st with errors := e3 }, e3.isEmpty)

/-- An element of a `FieldList`'s `errors` list: the source appends either
plain message strings (from the list's own validator chain) or a failing
entry's whole error list. -/
inductive FLErr where
  | msg : String → FLErr
  | sub : List String → FLErr
deriving DecidableEq

/-- One materialized entry of a `FieldList`: its derived wire name and
its bound field state. -/
structure FLEntry where
  name : String
  state : FieldState
deriving DecidableEq

/-- The state of a `FieldList`: the ordered `entries`, the highest index
ever assigned (`last_index`, starting at `-1`), and the list's own
`errors`. -/
structure FLState where
  entries : List FLEntry
  lastIndex : Int
  errors : List FLErr
deriving DecidableEq

/-- Static configuration of a `FieldList`: the template field's hooks and
default, the list's `short_name` and name prefix, `min_entries`,
`max_entries` (`0` models the falsy Python values `None`/`0`: no cap —
both the assertion and the truncation test use truthiness), and the
list's `default` (restricted to list values). -/
structure FLConfig where
  hooks : ProcHooks
  tmplDefault : PyVal
  shortName : String
  pfx : String
  minEntries : Nat
  maxEntries : Nat
  defaultData : List PyVal

/-- Models `FieldList._add_entry(formdata, data, index)`: the leading assertion
(`not max_entries or len(entries) < max_entries`) is modelled by returning
`none` (an `AssertionError`, a programming error) when it fails.  The new
entry's name is `short_name-index` (wire name prefixed with `pfx`), its
field is bound fresh and processed with the supplied formdata/object data,
and `last_index` is set to the index used. -/
def addEntry (cfg : FLConfig) (fd : Option Formdata) (dataArg : Option PyVal)
    (index : Option Int) (st : FLState) : Option FLState :=
  if cfg.maxEntries ≠ 0 ∧ ¬ st.entries.length < cfg.maxEntries then
    Option.none
  else
    let idx := index.getD (st.lastIndex + 1)
    let wname := cfg.pfx ++ cfg.shortName ++ "-" ++ toString idx
    let fstate := fieldProcess cfg.hooks wname cfg.tmplDefault fd dataArg
      initFieldState
    some { st with
      entries := st.entries ++ [{ name := wname, state := fstate }]
      lastIndex := idx }

/-- Is `p` a prefix of the character list? (`str.startswith`). -/
def charsPrefixOf : List Char → List Char → Bool
  | [], _ => true
  | _ :: _, [] => false
  | a :: as, b :: bs => a = b && charsPrefixOf as bs

/-- Python `k.startswith(pre)`. -/
def pyStartsWith (k pre : String) : Bool :=
  charsPrefixOf pre.data k.data

/-- Models `FieldList._extract_indices(prefix, formdata)`: for every key starting
with `prefix` (the list's wire name — the separator dash is *not* checked),
take the key from character offset `len(prefix) + 1` on
(`k[offset:]`), cut it at the first dash (`split('-', 1)[0]`), and yield
the leading segment as an integer when it `isdigit()` (nonempty and all
digits). -/
def extractIndices (pre : String) (f : Formdata) : List Nat :=
  f.filterMap (fun kv =>
    if pyStartsWith kv.1 pre then
      let seg := (kv.1.data.drop (pre.data.length + 1)).takeWhile
        (fun c => c ≠ '-')
      if seg ≠ [] ∧ seg.all Char.isDigit then
        some (seg.foldl (fun a c => a * 10 + (c.toNat - 48)) 0)
      else
        Option.none
    else
      Option.none)

/-- Insert into an ascending list, keeping it ascending. -/
def insertSorted (n : Nat) : List Nat → List Nat
  | [] => [n]
  | m :: rest => if n ≤ m then n :: m :: rest else m :: insertSorted n rest

/-- Python `sorted(set(l))`: the distinct elements in ascending order. -/
def sortedSet (l : List Nat) : List Nat :=
  l.dedup.foldr insertSorted []

/-- The formdata branch of `FieldList.process`: pairs each surviving index,
in order, with the next item of the object-data iterator (`unset_value`,
i.e. `none`, once the data runs out) and adds an entry at that exact
index. -/
def flAddIndexed (cfg : FLConfig) (fd : Option Formdata) :
    List Nat → List PyVal → FLState → Option FLState
  | [], _, st => some st
  | i :: rest, data, st =>
    let step : Option PyVal × List PyVal :=
      match data with
      | [] => (Option.none, [])
      | d :: ds => (some d, ds)
    match addEntry cfg fd step.1 (some (i : Int)) st with
    | some st' => flAddIndexed cfg fd rest step.2 st'
    | Option.none => Option.none

/-- The no-formdata branch of `FieldList.process`: one entry per item of
the object data, indices assigned sequentially from `last_index + 1`. -/
def flAddData (cfg : FLConfig) (fd : Option Formdata) :
    List PyVal → FLState → Option FLState
  | [], st => some st
  | d :: ds, st =>
    match addEntry cfg fd (some d) Option.none st with
    | some st' => flAddData cfg fd ds st'
    | Option.none => Option.none

/-- Runs `n` iterations of the padding loop body
(`self._add_entry(formdata)`). -/
def flPadN (cfg : FLConfig) (fd : Option Formdata) :
    Nat → FLState → Option FLState
  | 0, st => some st
  | n + 1, st =>
    match addEntry cfg fd Option.none Option.none st with
    | some st' => flPadN cfg fd n st'
    | Option.none => Option.none

/-- Python truthiness of the `formdata` argument (`if formdata:`):
present and nonempty. -/
def fdTruthy : Option Formdata → Bool
  | some f => f ≠ []
  | Option.none => false

/-- The `data` resolution of `FieldList.process`: the list's default when
`data` is unset (`none`) *or falsy* (empty). -/
def flResolveData (cfg : FLConfig) (dataArg : Option (List PyVal)) :
    List PyVal :=
  match dataArg with
  | Option.none => cfg.defaultData
  | some d => if d = [] then cfg.defaultData else d

/-- The surviving indices of the formdata branch of `FieldList.process`:
`sorted(set(self._extract_indices(name, formdata)))`, truncated to
`max_entries` when that is truthy. -/
def flIndices (cfg : FLConfig) (f : Formdata) : List Nat :=
  let idxs := sortedSet (extractIndices (cfg.pfx ++ cfg.shortName) f)
  if cfg.maxEntries ≠ 0 then idxs.take cfg.maxEntries else idxs

/-- A freshly bound `FieldList`: `entries = []`, `last_index = -1`
(`process` itself resets `entries` to `[]`). -/
def flInit : FLState := { entries := [], lastIndex := -1, errors := [] }

/-- The entry-creating phase of `FieldList.process`: the formdata branch
when `formdata` is truthy, else one entry per object-data item. -/
def flStep1 (cfg : FLConfig) (fd : Option Formdata)
    (dataArg : Option (List PyVal)) : Option FLState :=
  if fdTruthy fd then
    flAddIndexed cfg fd (flIndices cfg (fd.getD [])) (flResolveData cfg dataArg)
      flInit
  else
    flAddData cfg fd (flResolveData cfg dataArg) flInit

/-- Models `FieldList.process(formdata, data)` on a freshly bound list: the
entry-creating phase followed by the `while len(entries) < min_entries`
padding loop — each loop iteration adds exactly one entry, so the loop
equals `min_entries - len(entries)` iterations of its body. -/
def flProcess (cfg : FLConfig) (fd : Option Formdata)
    (dataArg : Option (List PyVal)) : Option FLState :=
  match flStep1 cfg fd dataArg with
  | some st => flPadN cfg fd (cfg.minEntries - st.entries.length) st
  | Option.none => Option.none

/-- Models `FieldList.append_entry(data)`: adds an entry with no formdata at
index `last_index + 1`. -/
def appendEntry (cfg : FLConfig) (dataArg : Option PyVal) (st : FLState) :
    Option FLState :=
  addEntry cfg Option.none dataArg Option.none st

/-- The `for subfield in self.entries: subfield.validate(form)` loop of
`FieldList.validate`, position `i` onward: validates each entry with its
hooks (a function of its position — all entries are bound from the same
template) and records the updated entry together with its boolean
result. -/
def flValidateEntries (eh : Nat → VOutcome × List VOutcome × Option String) :
    Nat → List FLEntry → List (FLEntry × Bool)
  | _, [] => []
  | i, e :: rest =>
    let h := eh i
    let r := fieldValidate h.1 h.2.1 h.2.2 e.state
    ({ e with state := r.1 }, r.2) :: flValidateEntries eh (i + 1) rest

/-- Models `FieldList.validate(form, extra_validators)`: resets `errors`, validates
every entry first (a failing entry's whole error list is appended as one
aggregate element), then runs the list's own validator chain regardless,
and returns `len(errors) == 0`. -/
def flValidate (eh : Nat → VOutcome × List VOutcome × Option String)
    (chain : List VOutcome) (st : FLState) : FLState × Bool :=
  let validated := flValidateEntries eh 0 st.entries
  let errs1 := validated.filterMap (fun p =>
    if p.2 then Option.none else some (FLErr.sub p.1.state.errors))
  let errs2 := (runChain FLErr.msg chain errs1).1
  ({ st with
      entries := validated.map (fun p => p.1)
      errors := errs2 },
    errs2.isEmpty)

/-- A `FieldList` of `StringField`s named `people`, no prefix, no
`min_entries`/`max_entries`, default `tuple()`. -/
def peopleCfg : FLConfig :=
  { hooks := stringHooks, tmplDefault := .none, shortName := "people",
    pfx := "", minEntries := 0, maxEntries := 0, defaultData := [] }

/-- The config `peopleCfg` with `max_entries = 2`. -/
def peopleMax2Cfg : FLConfig := { peopleCfg with maxEntries := 2 }

/-- The config `peopleCfg` with `min_entries = 3`. -/
def peopleMin3Cfg : FLConfig := { peopleCfg with minEntries := 3 }

/-- The wire name `_add_entry` derives for the next entry. -/
def entryName (cfg : FLConfig) (idx : Int) : String :=
  cfg.pfx ++ cfg.shortName ++ "-" ++ toString idx

theorem addEntry_eq (cfg : FLConfig) (fd : Option Formdata)
    (dataArg : Option PyVal) (index : Option Int) (st st' : FLState)
    (h : addEntry cfg fd dataArg index st = some st') :
    (cfg.maxEntries = 0 ∨ st.entries.length < cfg.maxEntries) ∧
    st' = { st with
      entries := st.entries ++
        [{ name := entryName cfg (index.getD (st.lastIndex + 1))
           state := fieldProcess cfg.hooks
             (entryName cfg (index.getD (st.lastIndex + 1)))
             cfg.tmplDefault fd dataArg initFieldState }]
      lastIndex := index.getD (st.lastIndex + 1) } := by
  unfold addEntry at h
  split at h
  · exact absurd h (by simp)
  · next hg =>
    refine ⟨?_, (Option.some.inj h).symm⟩
    by_cases hm : cfg.maxEntries = 0
    · exact Or.inl hm
    · refine Or.inr ?_
      by_contra hlt
      exact hg ⟨hm, hlt⟩

theorem addEntry_length (cfg : FLConfig) (fd : Option Formdata)
    (dataArg : Option PyVal) (index : Option Int) (st st' : FLState)
    (h : addEntry cfg fd dataArg index st = some st') :
    st'.entries.length = st.entries.length + 1 := by
  rw [(addEntry_eq cfg fd dataArg index st st' h).2]
  simp

theorem addEntry_le (cfg : FLConfig) (fd : Option Formdata)
    (dataArg : Option PyVal) (index : Option Int) (st st' : FLState)
    (hm : cfg.maxEntries ≠ 0)
    (h : addEntry cfg fd dataArg index st = some st') :
    st'.entries.length ≤ cfg.maxEntries := by
  obtain ⟨hb, he⟩ := addEntry_eq cfg fd dataArg index st st' h
  rw [he]
  simp only [List.length_append, List.length_cons, List.length_nil]
  rcases hb with hb | hb
  · exact absurd hb hm
  · omega

theorem addEntry_names (cfg : FLConfig) (fd : Option Formdata)
    (dataArg : Option PyVal) (index : Option Int) (st st' : FLState)
    (h : addEntry cfg fd dataArg index st = some st') :
    st'.entries.map FLEntry.name = st.entries.map FLEntry.name ++
      [entryName cfg (index.getD (st.lastIndex + 1))] := by
  rw [(addEntry_eq cfg fd dataArg index st st' h).2]
  simp

theorem flAddIndexed_le (cfg : FLConfig) (fd : Option Formdata)
    (hm : cfg.maxEntries ≠ 0) :
    ∀ (idxs : List Nat) (data : List PyVal) (st st' : FLState),
    st.entries.length ≤ cfg.maxEntries →
    flAddIndexed cfg fd idxs data st = some st' →
    st'.entries.length ≤ cfg.maxEntries := by
  intro idxs
  induction idxs with
  | nil =>
    intro data st st' hle h
    simp only [flAddIndexed] at h
    exact (Option.some.inj h) ▸ hle
  | cons i rest ih =>
    intro data st st' hle h
    simp only [flAddIndexed] at h
    split at h
    · next st1 heq =>
      exact ih _ st1 st' (addEntry_le cfg fd _ _ st st1 hm heq) h
    · exact absurd h (by simp)

theorem flAddData_le (cfg : FLConfig) (fd : Option Formdata)
    (hm : cfg.maxEntries ≠ 0) :
    ∀ (data : List PyVal) (st st' : FLState),
    st.entries.length ≤ cfg.maxEntries →
    flAddData cfg fd data st = some st' →
    st'.entries.length ≤ cfg.maxEntries := by
  intro data
  induction data with
  | nil =>
    intro st st' hle h
    simp only [flAddData] at h
    exact (Option.some.inj h) ▸ hle
  | cons d ds ih =>
    intro st st' hle h
    simp only [flAddData] at h
    split at h
    · next st1 heq =>
      exact ih st1 st' (addEntry_le cfg fd _ _ st st1 hm heq) h
    · exact absurd h (by simp)

theorem flPadN_le (cfg : FLConfig) (fd : Option Formdata)
    (hm : cfg.maxEntries ≠ 0) :
    ∀ (n : Nat) (st st' : FLState),
    st.entries.length ≤ cfg.maxEntries →
    flPadN cfg fd n st = some st' →
    st'.entries.length ≤ cfg.maxEntries := by
  intro n
  induction n with
  | zero =>
    intro st st' hle h
    simp only [flPadN] at h
    exact (Option.some.inj h) ▸ hle
  | succ k ih =>
    intro st st' hle h
    simp only [flPadN] at h
    split at h
    · next st1 heq =>
      exact ih st1 st' (addEntry_le cfg fd _ _ st st1 hm heq) h
    · exact absurd h (by simp)

theorem flPadN_length (cfg : FLConfig) (fd : Option Formdata) :
    ∀ (n : Nat) (st st' : FLState),
    flPadN cfg fd n st = some st' →
    st'.entries.length = st.entries.length + n := by
  intro n
  induction n with
  | zero =>
    intro st st' h
    simp only [flPadN] at h
    rw [(Option.some.inj h)]
    simp
  | succ k ih =>
    intro st st' h
    simp only [flPadN] at h
    split at h
    · next st1 heq =>
      have h1 := addEntry_length cfg fd _ _ st st1 heq
      have h2 := ih st1 st' h
      omega
    · exact absurd h (by simp)

theorem flAddIndexed_names (cfg : FLConfig) (fd : Option Formdata) :
    ∀ (idxs : List Nat) (data : List PyVal) (st st' : FLState),
    flAddIndexed cfg fd idxs data st = some st' →
    st'.entries.map FLEntry.name = st.entries.map FLEntry.name ++
      idxs.map (fun i => entryName cfg (i : Int)) := by
  intro idxs
  induction idxs with
  | nil =>
    intro data st st' h
    simp only [flAddIndexed] at h
    rw [(Option.some.inj h)]
    simp
  | cons i rest ih =>
    intro data st st' h
    simp only [flAddIndexed] at h
    split at h
    · next st1 heq =>
      have h1 := addEntry_names cfg fd _ _ st st1 heq
      have h2 := ih _ st1 st' h
      rw [h2, h1]
      simp
    · exact absurd h (by simp)

theorem preApply_extends (pre : VOutcome) (errs : List String) :
    ∃ rest, (preApply pre errs).1 = errs ++ rest := by
  cases pre with
  | ok => exact ⟨[], by simp [preApply]⟩
  | fail m => exact ⟨[m], by simp [preApply]⟩
  | stop om =>
    cases om with
    | none => exact ⟨[], by simp [preApply, pushMsg]⟩
    | some s =>
      by_cases hs : s = ""
      · exact ⟨[], by simp [preApply, pushMsg, hs]⟩
      · exact ⟨[s], by simp [preApply, pushMsg, hs]⟩

theorem runChain_extends {ε : Type} (inj : String → ε) :
    ∀ (chain : List VOutcome) (errs : List ε),
    ∃ rest, (runChain inj chain errs).1 = errs ++ rest := by
  intro chain
  induction chain with
  | nil => exact fun errs => ⟨[], by simp [runChain]⟩
  | cons v rest ih =>
    intro errs
    cases v with
    | ok => simpa [runChain] using ih errs
    | fail m =>
      obtain ⟨r, hr⟩ := ih (errs ++ [inj m])
      exact ⟨[inj m] ++ r, by simp [runChain, hr]⟩
    | stop om =>
      cases om with
      | none => exact ⟨[], by simp [runChain, pushMsg]⟩
      | some s =>
        by_cases hs : s = ""
        · exact ⟨[], by simp [runChain, pushMsg, hs]⟩
        · exact ⟨[inj s], by simp [runChain, pushMsg, hs]⟩

theorem fieldValidate_errors_extends (pre : VOutcome) (chain : List VOutcome)
    (post : Option String) (st : FieldState) :
    ∃ rest, (fieldValidate pre chain post st).1.errors =
      st.processErrors ++ rest := by
  obtain ⟨r0, h0⟩ := preApply_extends pre st.processErrors
  simp only [fieldValidate]
  by_cases hstop : (preApply pre st.processErrors).2
  · cases post with
    | none => exact ⟨r0, by simp [hstop, h0]⟩
    | some m => exact ⟨r0 ++ [m], by simp [hstop, h0]⟩
  · obtain ⟨r1, h1⟩ := runChain_extends id chain (preApply pre st.processErrors).1
    cases post with
    | none =>
      refine ⟨r0 ++ r1, ?_⟩
      simp only [hstop, Bool.false_eq_true, if_false]
      rw [h1, h0, List.append_assoc]
    | some m =>
      refine ⟨r0 ++ r1 ++ [m], ?_⟩
      simp only [hstop, Bool.false_eq_true, if_false]
      rw [h1, h0]
      simp

theorem fieldValidate_idem (pre : VOutcome) (chain : List VOutcome)
    (post : Option String) (st : FieldState) :
    fieldValidate pre chain post (fieldValidate pre chain post st).1 =
      fieldValidate pre chain post st := by
  simp [fieldValidate]

theorem flValidateEntries_idem
    (eh : Nat → VOutcome × List VOutcome × Option String) :
    ∀ (l : List FLEntry) (i : Nat),
    flValidateEntries eh i ((flValidateEntries eh i l).map Prod.fst) =
      flValidateEntries eh i l := by
  intro l
  induction l with
  | nil => intro i; simp [flValidateEntries]
  | cons e rest ih =>
    intro i
    have hidem := fieldValidate_idem (eh i).1 (eh i).2.1 (eh i).2.2 e.state
    simp only [flValidateEntries, List.map_cons]
    rw [ih (i + 1)]
    simp [hidem]

theorem flValidate_idem (eh : Nat → VOutcome × List VOutcome × Option String)
    (chain : List VOutcome) (st : FLState) :
    flValidate eh chain (flValidate eh chain st).1 = flValidate eh chain st := by
  simp only [flValidate]
  rw [flValidateEntries_idem]

/-- Claim C1 (counterexample): the claim asserts that after
`process_formdata(["2"])` on a single-select field with
`choices=[("1","One"),("2","Two")]` and `coerce=int`, `pre_validate`
passes.  In the code, `pre_validate` compares `data` (here the int `2`)
against the *raw* choice values (the strings `"1"`, `"2"`) without
coercing them, so it raises "Not a valid choice" even for this valid
submission. -/
theorem c1_counterexample :
    selectPreValidate [(.str "1", "One"), (.str "2", "Two")]
      (fieldProcess (selectHooks coerceInt) "color" .none
        (some [("color", "2")]) Option.none initFieldState).data
      = some "Not a valid choice" := by decide

/-- Claim C1 (amended): `SelectField.pre_validate` succeeds iff `data`
equals the *raw (uncoerced)* first component of some entry in `choices`.
Hence with `choices=[("1","One"),("2","Two")]` and `coerce=int`, both
`process_formdata(["2"])` and `process_formdata(["9"])` are followed by a
raising `pre_validate`; with the default `coerce=str` the submission
`"2"` passes. -/
theorem c1_prevalidate_raw_membership :
    (∀ (choices : List (PyVal × String)) (d : PyVal),
        selectPreValidate choices d = Option.none ↔ ∃ c ∈ choices, c.1 = d)
    ∧ selectPreValidate [(.str "1", "One"), (.str "2", "Two")]
        (fieldProcess (selectHooks coerceInt) "color" .none
          (some [("color", "2")]) Option.none initFieldState).data
        = some "Not a valid choice"
    ∧ selectPreValidate [(.str "1", "One"), (.str "2", "Two")]
        (fieldProcess (selectHooks coerceInt) "color" .none
          (some [("color", "9")]) Option.none initFieldState).data
        = some "Not a valid choice"
    ∧ selectPreValidate [(.str "1", "One"), (.str "2", "Two")]
        (fieldProcess (selectHooks coerceStr) "color" .none
          (some [("color", "2")]) Option.none initFieldState).data
        = Option.none := by
  refine ⟨fun choices d => ?_, by decide, by decide, by decide⟩
  constructor
  · intro h
    unfold selectPreValidate at h
    split at h
    · next hany =>
      obtain ⟨c, hc, hcd⟩ := List.any_eq_true.mp hany
      exact ⟨c, hc, of_decide_eq_true hcd⟩
    · exact absurd h (by simp)
  · rintro ⟨c, hc, rfl⟩
    unfold selectPreValidate
    have hany : (choices.any fun x => decide (x.1 = c.1)) = true :=
      List.any_eq_true.mpr ⟨c, hc, by simp⟩
    simp [hany]

/-- Claim C1 witness: the raw-membership characterization applied at a
concrete choice list. -/
theorem c1_witness :
    selectPreValidate [(.str "1", "One")] (.str "1") = Option.none :=
  (c1_prevalidate_raw_membership.1 [(.str "1", "One")] (.str "1")).mpr
    ⟨(.str "1", "One"), by simp, rfl⟩

/-- Claim C2 (counterexample): the claim asserts the collected indices are
the integer segments following the field's *name-plus-dash* prefix.  The
key `peoplex0` does not start with `people-`, yet the code (which checks
only `startswith(name)` and then skips one character unchecked) extracts
index `0` from it and materializes an entry named `people-0`. -/
theorem c2_counterexample :
    pyStartsWith "peoplex0" "people-" = false
    ∧ ((flProcess peopleCfg (some [("peoplex0", "Z")]) Option.none).map
        (fun st => st.entries.map FLEntry.name) = some ["people-0"]) := by
  decide

/-- Claim C2 (amended): the round trip holds as claimed — submitting
`people-0 ↦ "Al"`, `people-2 ↦ "Cy"` yields exactly two entries with data
`"Al"`, `"Cy"` and derived names `people-0`, `people-2` (indices
preserved).  In general the indices are extracted from every key that
starts with the field's wire name (the dash separator itself is *not*
verified; the integer segment is read from character offset
`len(name) + 1` up to the next dash), collected as a set, sorted
ascending, truncated to `max_entries`, and each entry's derived name
keeps its original index. -/
theorem c2_fieldlist_roundtrip :
    ((flProcess peopleCfg (some [("people-0", "Al"), ("people-2", "Cy")])
        Option.none).map
      (fun st => st.entries.map (fun e => (e.name, e.state.data)))
      = some [("people-0", .str "Al"), ("people-2", .str "Cy")])
    ∧ (∀ (cfg : FLConfig) (f : Formdata) (dataArg : Option (List PyVal))
        (st : FLState),
        cfg.minEntries = 0 → f ≠ [] →
        flProcess cfg (some f) dataArg = some st →
        st.entries.map FLEntry.name =
          (flIndices cfg f).map (fun i => entryName cfg (i : Int))
        ∧ flIndices cfg f = (if cfg.maxEntries ≠ 0 then
            (sortedSet (extractIndices (cfg.pfx ++ cfg.shortName) f)).take
              cfg.maxEntries
          else sortedSet (extractIndices (cfg.pfx ++ cfg.shortName) f))) := by
  refine ⟨by decide, ?_⟩
  intro cfg f dataArg st hmin hf h
  refine ⟨?_, by simp [flIndices]⟩
  unfold flProcess at h
  have hft : fdTruthy (some f) = true := by
    simp [fdTruthy, hf]
  rw [flStep1, hft, if_pos rfl] at h
  cases heq : flAddIndexed cfg (some f) (flIndices cfg ((some f : Option Formdata).getD []))
      (flResolveData cfg dataArg) flInit with
  | none => rw [heq] at h; exact absurd h (by simp)
  | some st1 =>
    rw [heq] at h
    rw [hmin] at h
    simp only [Nat.zero_sub, flPadN] at h
    have hst : st1 = st := Option.some.inj h
    subst hst
    have := flAddIndexed_names cfg (some f) _ _ flInit st1 heq
    simpa [flInit] using this

/-- Claim C2 witness: the amended general statement applied to the
round-trip formdata. -/
theorem c2_witness :
    ∃ st, flProcess peopleCfg (some [("people-0", "Al"), ("people-2", "Cy")])
      Option.none = some st
      ∧ st.entries.map FLEntry.name = ["people-0", "people-2"] := by
  cases heq : flProcess peopleCfg
      (some [("people-0", "Al"), ("people-2", "Cy")]) Option.none with
  | none => exact absurd heq (by decide)
  | some st =>
    have h := (c2_fieldlist_roundtrip.2 peopleCfg
      [("people-0", "Al"), ("people-2", "Cy")] Option.none st (by decide)
      (by decide) heq).1
    exact ⟨st, rfl, by rw [h]; decide⟩

/-- Claim C3: in the validator chain, a plain value error appends its
message and continues; a stop-validation signal appends its (truthy)
message and halts, the remaining validators never running; hence a
non-halting failure followed by a halting failure yields both messages in
`errors`, in that order, and everything after the halting validator is
skipped (the result does not depend on it). -/
theorem c3_validator_chain_semantics :
    (∀ (m : String) (rest : List VOutcome) (errs : List String),
        runChain id (VOutcome.fail m :: rest) errs =
          runChain id rest (errs ++ [m]))
    ∧ (∀ (om : Option String) (rest : List VOutcome) (errs : List String),
        runChain id (VOutcome.stop om :: rest) errs = (pushMsg id om errs, true))
    ∧ (∀ (st : FieldState) (m1 m2 : String) (vs2 : List VOutcome), m2 ≠ "" →
        (fieldValidate VOutcome.ok
          (VOutcome.fail m1 :: VOutcome.stop (some m2) :: vs2) Option.none
          st).1.errors = st.processErrors ++ [m1, m2]) := by
  refine ⟨fun m rest errs => rfl, fun om rest errs => rfl, ?_⟩
  intro st m1 m2 vs2 hm2
  simp [fieldValidate, preApply, runChain, pushMsg, hm2]

/-- Claim C3 witness: the two-failure scenario at a concrete chain — both
messages collected in order, the validator after the halting one
skipped. -/
theorem c3_witness :
    (fieldValidate VOutcome.ok (VOutcome.fail "bad" ::
      VOutcome.stop (some "halt") :: [VOutcome.fail "skipped"]) Option.none
      initFieldState).1.errors = initFieldState.processErrors ++ ["bad", "halt"] :=
  c3_validator_chain_semantics.2.2 initFieldState "bad" "halt"
    [VOutcome.fail "skipped"] (by decide)

/-- Claim C4: `process` never lets a value error escape — whatever the
hooks raise, it returns a plain state whose `process_errors` lists
exactly the raised messages in phase order (`process_data`,
`process_formdata`, filters); and `validate` likewise returns normally,
reporting problems only through the `errors` sequence (which starts with
`process_errors`) and its boolean result (`errors` emptiness). -/
theorem c4_process_captures_all_errors :
    (∀ (h : ProcHooks) (name : String) (default : PyVal) (f : Formdata)
        (d0 : Option PyVal) (st : FieldState) (raw : List String)
        (d1 d2 d3 : PyVal) (e1 e2 e3 : Option String),
        raw = (if containsKey f name then getAll f name else []) →
        h.processData (d0.getD default) = (d1, e1) →
        h.processFormdata raw d1 = (d2, e2) →
        applyFilters h.filters d2 = (d3, e3) →
        fieldProcess h name default (some f) d0 st =
          { data := d3, rawData := some raw, objectData := d0.getD default,
            processErrors := e1.toList ++ (e2.toList ++ e3.toList),
            errors := st.errors })
    ∧ (∀ (pre : VOutcome) (chain : List VOutcome) (post : Option String)
        (st : FieldState),
        (fieldValidate pre chain post st).2 =
          (fieldValidate pre chain post st).1.errors.isEmpty
        ∧ ∃ rest, (fieldValidate pre chain post st).1.errors =
            st.processErrors ++ rest) := by
  constructor
  · intro h name default f d0 st raw d1 d2 d3 e1 e2 e3 hraw h1 h2 h3
    subst hraw
    simp [fieldProcess, h1, h2, h3]
  · intro pre chain post st
    exact ⟨by simp [fieldValidate], fieldValidate_errors_extends pre chain post st⟩

/-- Claim C4 witness: the capture equation at the failing integer parse —
the `ValueError` message lands in `process_errors`, and `process` returns
a plain state. -/
theorem c4_witness :
    fieldProcess integerHooks "num" .none (some [("num", "abc")]) Option.none
      initFieldState =
      { data := .none, rawData := some ["abc"], objectData := .none,
        processErrors := ["Not a valid integer value"], errors := [] } :=
  c4_process_captures_all_errors.1 integerHooks "num" .none [("num", "abc")]
    Option.none initFieldState ["abc"] .none .none .none Option.none
    (some "Not a valid integer value") Option.none (by decide) (by decide)
    (by decide) (by decide)

/-- Claim C5: with the default `false_values`, an empty raw value list
gives `data = False`, a first raw value `"false"` gives `False`, any
first raw value outside `false_values` gives `True`; and with formdata
present, an absent key is indistinguishable from an explicit `"false"`
submission. -/
theorem c5_boolean_false_values :
    (∀ (d : PyVal),
        (booleanProcessFormdata defaultFalseValues [] d).1 = .bool false)
    ∧ (∀ (d : PyVal),
        (booleanProcessFormdata defaultFalseValues ["false"] d).1 = .bool false)
    ∧ (∀ (x : String) (xs : List String) (d : PyVal),
        PyVal.str x ∉ defaultFalseValues →
        (booleanProcessFormdata defaultFalseValues (x :: xs) d).1 = .bool true)
    ∧ (∀ (f : Formdata) (od : PyVal), containsKey f "flag" = false →
        (fieldProcess booleanHooks "flag" .none (some f) (some od)
          initFieldState).data = .bool false
        ∧ (fieldProcess booleanHooks "flag" .none
            (some (("flag", "false") :: f)) (some od) initFieldState).data
          = .bool false) := by
  refine ⟨fun d => rfl, fun d => rfl, ?_, ?_⟩
  · intro x xs d hx
    simp [booleanProcessFormdata, hx]
  · intro f od hf
    constructor
    · simp [fieldProcess, booleanHooks, booleanHooksWith,
        booleanProcessFormdata, applyFilters, hf]
    · simp [fieldProcess, booleanHooks, booleanHooksWith,
        booleanProcessFormdata, applyFilters, containsKey, getAll,
        defaultFalseValues]

/-- Claim C5 witness: a non-false value yields `True`; an absent key
yields `False` like an explicit `"false"`. -/
theorem c5_witness :
    (PyVal.str "y" ∉ defaultFalseValues)
    ∧ (booleanProcessFormdata defaultFalseValues ["y"] .none).1 = .bool true
    ∧ containsKey [("other", "1")] "flag" = false
    ∧ (fieldProcess booleanHooks "flag" .none (some [("other", "1")])
        (some (.str "x")) initFieldState).data = .bool false :=
  ⟨by decide, c5_boolean_false_values.2.2.1 "y" [] .none (by decide), by decide,
    (c5_boolean_false_values.2.2.2 [("other", "1")] (.str "x") (by decide)).1⟩

/-- Claim C6: `process_formdata(["42"])` yields `data = 42` and no process
error; `process_formdata(["abc"])` yields `data = None`, exactly one
process error "Not a valid integer value", and `value()` redisplays
`"abc"`; in general `value()` prefers `raw_data[0]` over the formatted
data whenever `raw_data` is nonempty. -/
theorem c6_integer_redisplay :
    ((fieldProcess integerHooks "num" .none (some [("num", "42")]) Option.none
        initFieldState).data = .int 42)
    ∧ ((fieldProcess integerHooks "num" .none (some [("num", "42")]) Option.none
        initFieldState).processErrors = [])
    ∧ ((fieldProcess integerHooks "num" .none (some [("num", "abc")])
        Option.none initFieldState).data = .none)
    ∧ ((fieldProcess integerHooks "num" .none (some [("num", "abc")])
        Option.none initFieldState).processErrors
        = ["Not a valid integer value"])
    ∧ (integerValue (fieldProcess integerHooks "num" .none
        (some [("num", "abc")]) Option.none initFieldState) = "abc")
    ∧ (∀ (st : FieldState) (x : String) (xs : List String),
        st.rawData = some (x :: xs) → integerValue st = x) := by
  refine ⟨by decide, by decide, by decide, by decide, by decide, ?_⟩
  intro st x xs h
  simp [integerValue, h]

/-- Claim C6 witness: the raw-data preference applied at the failed
parse. -/
theorem c6_witness :
    (fieldProcess integerHooks "num" .none (some [("num", "abc")]) Option.none
      initFieldState).rawData = some ("abc" :: [])
    ∧ integerValue (fieldProcess integerHooks "num" .none
        (some [("num", "abc")]) Option.none initFieldState) = "abc" :=
  ⟨by decide, c6_integer_redisplay.2.2.2.2.2 _ "abc" [] (by decide)⟩

/-- Claim C7: whenever `max_entries` is set (truthy), every successful
entry-adding operation (`process`, `append_entry`) leaves
`len(entries) ≤ max_entries`; submitting indices {0,1,2,3} with
`max_entries = 2` yields exactly the two lowest-index entries
`people-0`, `people-1`. -/
theorem c7_max_entries_invariant :
    (∀ (cfg : FLConfig) (fd : Option Formdata) (dataArg : Option (List PyVal))
        (st : FLState), cfg.maxEntries ≠ 0 →
        flProcess cfg fd dataArg = some st →
        st.entries.length ≤ cfg.maxEntries)
    ∧ (∀ (cfg : FLConfig) (dataArg : Option PyVal) (st st' : FLState),
        cfg.maxEntries ≠ 0 → appendEntry cfg dataArg st = some st' →
        st'.entries.length ≤ cfg.maxEntries)
    ∧ ((flProcess peopleMax2Cfg (some [("people-0", "a"), ("people-1", "b"),
          ("people-2", "c"), ("people-3", "d")]) Option.none).map
        (fun st => st.entries.map FLEntry.name)
        = some ["people-0", "people-1"]) := by
  refine ⟨?_, ?_, by decide⟩
  · intro cfg fd dataArg st hm h
    unfold flProcess at h
    cases heq : flStep1 cfg fd dataArg with
    | none => rw [heq] at h; exact absurd h (by simp)
    | some st1 =>
      rw [heq] at h
      have h1 : st1.entries.length ≤ cfg.maxEntries := by
        unfold flStep1 at heq
        split at heq
        · exact flAddIndexed_le cfg fd hm _ _ flInit st1 (by simp [flInit]) heq
        · exact flAddData_le cfg fd hm _ flInit st1 (by simp [flInit]) heq
      exact flPadN_le cfg fd hm _ st1 st h1 h
  · intro cfg dataArg st st' hm h
    exact addEntry_le cfg Option.none dataArg Option.none st st' hm h

/-- Claim C7 witness: the invariant applied at the {0,1,2,3} submission
with `max_entries = 2`. -/
theorem c7_witness :
    ∃ st, flProcess peopleMax2Cfg (some [("people-0", "a"), ("people-1", "b"),
      ("people-2", "c"), ("people-3", "d")]) Option.none = some st
      ∧ st.entries.length ≤ peopleMax2Cfg.maxEntries := by
  cases heq : flProcess peopleMax2Cfg (some [("people-0", "a"),
      ("people-1", "b"), ("people-2", "c"), ("people-3", "d")]) Option.none with
  | none => exact absurd heq (by decide)
  | some st =>
    exact ⟨st, rfl, c7_max_entries_invariant.1 peopleMax2Cfg _ _ st
      (by decide) heq⟩

/-- Claim C8 (counterexample): after `process(None, [])` with
`min_entries = 3` and a `StringField` template, the three padded entries
hold `data = None` — not the empty string the claim asserts
(`StringField.process_formdata` never runs when `formdata` is `None`). -/
theorem c8_counterexample :
    ((flProcess peopleMin3Cfg Option.none (some [])).map
      (fun st => st.entries.map (fun e => e.state.data))
      = some [.none, .none, .none])
    ∧ ((flProcess peopleMin3Cfg Option.none (some [])).map
        (fun st => st.entries.map (fun e => e.state.data))
        ≠ some [.str "", .str "", .str ""]) := by decide

/-- Claim C8 (amended): after `process(None, [])` with `min_entries = 3`
the list has exactly 3 entries, all holding `data = None` (the template's
default), whose rendered `value()` is the empty string; in general a
successful `process` pads until `len(entries) ≥ min_entries`. -/
theorem c8_min_entries_padding :
    ((flProcess peopleMin3Cfg Option.none (some [])).map
      (fun st => st.entries.map (fun e => (e.name, e.state.data, baseValue e.state)))
      = some [("people-0", .none, ""), ("people-1", .none, ""),
          ("people-2", .none, "")])
    ∧ (∀ (cfg : FLConfig) (fd : Option Formdata) (dataArg : Option (List PyVal))
        (st : FLState), flProcess cfg fd dataArg = some st →
        cfg.minEntries ≤ st.entries.length) := by
  refine ⟨by decide, ?_⟩
  intro cfg fd dataArg st h
  unfold flProcess at h
  cases heq : flStep1 cfg fd dataArg with
  | none => rw [heq] at h; exact absurd h (by simp)
  | some st1 =>
    rw [heq] at h
    have := flPadN_length cfg fd _ st1 st h
    omega

/-- Claim C8 witness: the padding bound applied at `process(None, [])`
with `min_entries = 3`. -/
theorem c8_witness :
    ∃ st, flProcess peopleMin3Cfg Option.none (some []) = some st
      ∧ peopleMin3Cfg.minEntries ≤ st.entries.length := by
  cases heq : flProcess peopleMin3Cfg Option.none (some []) with
  | none => exact absurd heq (by decide)
  | some st => exact ⟨st, rfl, c8_min_entries_padding.2 _ _ _ st heq⟩

/-- Claim C9: `validate` is idempotent — run twice with no intervening
state change it rebuilds the same `errors` (it rereads only
`process_errors`, which it never writes) and returns the same boolean;
the boolean is true iff `errors` is empty afterwards; `errors` is seeded
from `process_errors`; and `FieldList.validate` is likewise
idempotent. -/
theorem c9_validate_idempotent :
    (∀ (pre : VOutcome) (chain : List VOutcome) (post : Option String)
        (st : FieldState),
        fieldValidate pre chain post (fieldValidate pre chain post st).1 =
          fieldValidate pre chain post st)
    ∧ (∀ (pre : VOutcome) (chain : List VOutcome) (post : Option String)
        (st : FieldState),
        ((fieldValidate pre chain post st).2 = true ↔
          (fieldValidate pre chain post st).1.errors = [])
        ∧ ∃ rest, (fieldValidate pre chain post st).1.errors =
            st.processErrors ++ rest)
    ∧ (∀ (eh : Nat → VOutcome × List VOutcome × Option String)
        (chain : List VOutcome) (st : FLState),
        flValidate eh chain (flValidate eh chain st).1 =
          flValidate eh chain st) := by
  refine ⟨fieldValidate_idem, ?_, flValidate_idem⟩
  intro pre chain post st
  refine ⟨?_, fieldValidate_errors_extends pre chain post st⟩
  simp [fieldValidate, List.isEmpty_iff]

/-- Claim C9 witness: idempotence at a concrete field state. -/
theorem c9_witness :
    fieldValidate VOutcome.ok [VOutcome.fail "oops"] Option.none
      (fieldValidate VOutcome.ok [VOutcome.fail "oops"] Option.none
        initFieldState).1 =
      fieldValidate VOutcome.ok [VOutcome.fail "oops"] Option.none
        initFieldState :=
  c9_validate_idempotent.1 VOutcome.ok [VOutcome.fail "oops"] Option.none
    initFieldState

/-- Claim C10: for a `StringField`, when formdata is supplied but lacks
the field's wire key, `raw_data` becomes `[]` and `data` becomes `""`,
overwriting the object data — whereas the base `Field` leaves `data` as
the processed object data on an empty value list. -/
theorem c10_string_absent_key :
    ∀ (f : Formdata) (d : PyVal), containsKey f "name" = false →
    ((fieldProcess stringHooks "name" .none (some f) (some d)
        initFieldState).rawData = some []
    ∧ (fieldProcess stringHooks "name" .none (some f) (some d)
        initFieldState).data = .str ""
    ∧ (fieldProcess baseHooks "name" .none (some f) (some d)
        initFieldState).data = d) := by
  intro f d hf
  refine ⟨?_, ?_, ?_⟩ <;>
    simp [fieldProcess, stringHooks, baseHooks, stringProcessFormdata,
      baseProcessFormdata, baseProcessData, applyFilters, hf]

/-- Claim C10 witness: a formdata with only an unrelated key. -/
theorem c10_witness :
    containsKey [("other", "x")] "name" = false
    ∧ (fieldProcess stringHooks "name" .none (some [("other", "x")])
        (some (.str "obj")) initFieldState).data = .str ""
    ∧ (fieldProcess baseHooks "name" .none (some [("other", "x")])
        (some (.str "obj")) initFieldState).data = .str "obj" :=
  ⟨by decide,
    (c10_string_absent_key [("other", "x")] (.str "obj") (by decide)).2.1,
    (c10_string_absent_key [("other", "x")] (.str "obj") (by decide)).2.2⟩

end FastForms
